import Mathlib

/-!
# just-tp backend: the PDF listing handler and the static route

A shallow embedding of `src/backend/main.go`.  The handler `listPDFsHandler`
reads the directory `./pdfs`, keeps the entries that are not directories, whose
extension is `.pdf` and whose `os.Stat` succeeds, and writes them as JSON.
`main` registers that handler under `/api/pdfs` and a file server for the same
directory under `/pdfs/`.

The file system, the response writer and the request are explicit values; the
library functions the source calls (`filepath.Ext`, `filepath.Join`,
`http.Error`, `json.Encoder.Encode`, the request parsing of `net/http`) are
embedded next to the code that calls them.
-/

set_option autoImplicit false

namespace JustTp

/-! ## Strings and paths -/

/-- Go `strings.HasSuffix s suffix`, as a proposition on the characters. -/
def hasSuffix (s suffix : String) : Prop := suffix.data <:+ s.data

instance (s suffix : String) : Decidable (hasSuffix s suffix) := by
  unfold hasSuffix; infer_instance

/-- The backward scan of `filepath.Ext`: `rev` is the part of the path not yet
visited, last character first, and `acc` is the part already visited.  The scan
stops without an extension at a path separator and returns the text from the
dot onwards at the first dot it meets. -/
def extScan : List Char → List Char → Option (List Char)
  | [], _ => none
  | c :: rev, acc =>
    if c = '/' then none
    else if c = '.' then some (c :: acc)
    else extScan rev (c :: acc)

/-- Go `filepath.Ext`: the suffix beginning at the final dot in the final
element of `path`, empty if there is no dot. -/
def Ext (path : String) : String :=
  match extScan path.data.reverse [] with
  | some ext => String.mk ext
  | none => ""

/-- Split a character list at every `/` (Go `strings.Split(s, "/")`). -/
def splitSlash : List Char → List (List Char)
  | [] => [[]]
  | c :: cs =>
    match splitSlash cs with
    | [] => [[c]]
    | seg :: segs => if c = '/' then [] :: seg :: segs else (c :: seg) :: segs

/-- One step of `Clean` on the stack of kept path elements (last one first):
empty and `.` elements are dropped, `..` removes the last kept element when
there is one that is not itself `..`, is dropped at the root and is kept
otherwise, and any other element is kept. -/
def cleanStep (rooted : Bool) (stack : List (List Char)) (seg : List Char) :
    List (List Char) :=
  if seg = [] ∨ seg = ['.'] then stack
  else if seg = ['.', '.'] then
    match stack with
    | [] => if rooted then [] else [seg]
    | top :: rest => if top = ['.', '.'] then seg :: top :: rest else rest
  else seg :: stack

/-- Join path elements with `/`. -/
def joinSlash : List (List Char) → List Char
  | [] => []
  | [seg] => seg
  | seg :: segs => seg ++ '/' :: joinSlash segs

/-- Go `filepath.Clean` (and `path.Clean`) with `/` as the separator: the
shortest path equivalent to `path` by purely lexical processing. -/
def Clean (path : String) : String :=
  match path.data with
  | [] => "."
  | c :: cs =>
    let rooted : Bool := c = '/'
    let kept := ((splitSlash (c :: cs)).foldl (cleanStep rooted) []).reverse
    if rooted then String.mk ('/' :: joinSlash kept)
    else if kept = [] then "."
    else String.mk (joinSlash kept)

/-- Go `filepath.Join dir name` for two elements: empty elements are ignored,
the rest are joined with `/` and the result is cleaned. -/
def filepathJoin (dir name : String) : String :=
  if dir = "" then (if name = "" then "" else Clean name)
  else Clean (dir ++ "/" ++ name)

/-! ## The file system seen by one request -/

/-- A modification time (`time.Time`).  The model keeps what the output of the
handler depends on: the year, which decides whether `Time.MarshalJSON`
succeeds, and the RFC 3339 text it produces when it does.  The calendar
arithmetic that relates the two is not modelled. -/
structure Time where
  year : Int
  rfc3339 : String
  deriving DecidableEq

/-- What `os.Stat` returns on success (`fs.FileInfo`), as far as the program
reads it. -/
structure FileInfo where
  Size : Int
  ModTime : Time
  IsDir : Bool
  deriving DecidableEq

/-- The type bits of a directory entry (`fs.FileMode.Type`). -/
inductive FileType where
  | regular
  | dir
  | symlink
  | namedPipe
  | socket
  | device
  | charDevice
  | irregular
  deriving DecidableEq

/-- A directory entry as returned by `os.ReadDir` (`fs.DirEntry`). -/
structure DirEntry where
  Name : String
  Typ : FileType
  deriving DecidableEq

/-- Go `DirEntry.IsDir`: whether the entry describes a directory.  A symbolic
link is not a directory, whatever it points to. -/
def DirEntry.IsDir (entry : DirEntry) : Bool :=
  decide (entry.Typ = FileType.dir)

deriving instance DecidableEq for Except

/-- The kinds of error of a file-system call (`*fs.PathError`) that the program
or the file server tells apart. -/
inductive PathError where
  | notExist
  | permission
  | other
  deriving DecidableEq

/-- The state of the file system during one request: `ReadDir name` is the
pair returned by `os.ReadDir` (the entries, sorted by file name, and the error
if any), `Stat name` the result of `os.Stat`, which follows symbolic links, and
`Open name` the bytes read from the file opened by `os.Open`. -/
structure FileSystem where
  ReadDir : String → List DirEntry × Option PathError
  Stat : String → Except PathError FileInfo
  Open : String → Except PathError (List Nat)

/-! ## The listing -/

/-- The served directory (`const pdfDir`). -/
def pdfDir : String := "./pdfs"

/-- One element of the listing (`type PDFInfo struct`). -/
structure PDFInfo where
  Name : String
  Size : Int
  ModTime : Time
  URL : String
  deriving DecidableEq

/-- A Go slice value as far as the program and `encoding/json` tell it apart:
the nil slice, or a non-nil slice with its elements. -/
inductive Slice (α : Type) where
  | nil
  | elems (xs : List α)
  deriving DecidableEq

/-- The elements of a slice, in order. -/
def Slice.toList {α : Type} : Slice α → List α
  | Slice.nil => []
  | Slice.elems xs => xs

/-- Go `append(s, x)`: the result is never nil. -/
def Slice.append {α : Type} (s : Slice α) (x : α) : Slice α :=
  Slice.elems (s.toList ++ [x])

/-- The body of the `for _, entry := range entries` loop of `listPDFsHandler`
(lines 31 to 52): the three `continue` guards, then the `append`. -/
def listPDFsHandler_step (fs : FileSystem) (pdfs : Slice PDFInfo) (entry : DirEntry) :
    Slice PDFInfo :=
  if entry.IsDir then pdfs
  else if Ext entry.Name ≠ ".pdf" then pdfs
  else
    let fullPath := filepathJoin pdfDir entry.Name
    match fs.Stat fullPath with
    | Except.error _ => pdfs
    | Except.ok info =>
      pdfs.append
        { Name := entry.Name
          Size := info.Size
          ModTime := info.ModTime
          URL := "/pdfs/" ++ entry.Name }

/-- The slice `pdfs` of `listPDFsHandler` after the loop: it starts as the nil
slice (`var pdfs []PDFInfo`) and the entries are visited in the order in which
`os.ReadDir` returned them. -/
def listPDFsHandler_pdfs (fs : FileSystem) (entries : List DirEntry) : Slice PDFInfo :=
  entries.foldl (listPDFsHandler_step fs) Slice.nil

/-! ## The response writer -/

/-- A header map (`http.Header`), one value per key, for keys already in
canonical form. -/
abbrev Header := List (String × String)

/-- Go `Header.Set`: replace whatever the key held by the one value. -/
def Header.Set (h : Header) (key value : String) : Header :=
  h.filter (fun kv => kv.1 ≠ key) ++ [(key, value)]

/-- Go `Header.Get`: the value of the key, empty when the key is absent. -/
def Header.Get (h : Header) (key : String) : String :=
  match h.find? (fun kv => kv.1 = key) with
  | some kv => kv.2
  | none => ""

/-- Whether the key is present in the header map. -/
def Header.Has (h : Header) (key : String) : Bool :=
  h.any (fun kv => kv.1 = key)

/-- What the client receives: the status line, the headers of the handler and
the body. -/
structure Response where
  StatusCode : Nat
  Header : Header
  Body : String
  deriving DecidableEq

/-- The state of an `http.ResponseWriter`: the header map the handler can
still edit, the status and headers already sent (if any), and the body
written so far. -/
structure ResponseWriter where
  header : Header
  sent : Option (Nat × Header)
  body : String
  deriving DecidableEq

/-- The writer a handler is given for a new request. -/
def ResponseWriter.new : ResponseWriter :=
  { header := [], sent := none, body := "" }

/-- The call `w.Header().Set(key, value)`. -/
def ResponseWriter.HeaderSet (w : ResponseWriter) (key value : String) : ResponseWriter :=
  { w with header := w.header.Set key value }

/-- Go `w.WriteHeader(code)`: the first call sends the status with the headers
as they are at that moment; a later call changes nothing. -/
def ResponseWriter.WriteHeader (w : ResponseWriter) (code : Nat) : ResponseWriter :=
  match w.sent with
  | some _ => w
  | none => { w with sent := some (code, w.header) }

/-- Go `w.Write(data)`: sends status 200 first when no status was sent. -/
def ResponseWriter.Write (w : ResponseWriter) (data : String) : ResponseWriter :=
  let w1 := w.WriteHeader 200
  { w1 with body := w1.body ++ data }

/-- The response once the handler has returned: a handler that sent no status
is answered with 200 and the headers it left in the map. -/
def ResponseWriter.finish (w : ResponseWriter) : Response :=
  match w.sent with
  | some (code, h) => { StatusCode := code, Header := h, Body := w.body }
  | none => { StatusCode := 200, Header := w.header, Body := w.body }

/-- Go `http.StatusInternalServerError`. -/
def StatusInternalServerError : Nat := 500

/-- Go `http.Error(w, error, code)`: a plain-text reply whose body is the
message followed by a newline (`fmt.Fprintln`). -/
def Error (w : ResponseWriter) (error : String) (code : Nat) : ResponseWriter :=
  let w1 := w.HeaderSet "Content-Type" "text/plain; charset=utf-8"
  let w2 := w1.HeaderSet "X-Content-Type-Options" "nosniff"
  let w3 := w2.WriteHeader code
  w3.Write (error ++ "\n")

/-! ## JSON encoding of the listing -/

/-- The digit of value `n` in lower-case hexadecimal. -/
def hexDigit (n : Nat) : Char :=
  if n < 10 then Char.ofNat (48 + n) else Char.ofNat (87 + n)

/-- The JSON text of one character inside a string, as `encoding/json` writes
it with HTML escaping on (the default of `json.NewEncoder`). -/
def escapeChar (c : Char) : List Char :=
  if c = '"' ∨ c = '\\' then ['\\', c]
  else if c = '\x08' then ['\\', 'b']
  else if c = '\x0c' then ['\\', 'f']
  else if c = '\n' then ['\\', 'n']
  else if c = '\r' then ['\\', 'r']
  else if c = '\t' then ['\\', 't']
  else if c.toNat < 32 ∨ c = '<' ∨ c = '>' ∨ c = '&' then
    ['\\', 'u', '0', '0', hexDigit (c.toNat / 16), hexDigit (c.toNat % 16)]
  else if c.toNat = 0x2028 then ['\\', 'u', '2', '0', '2', '8']
  else if c.toNat = 0x2029 then ['\\', 'u', '2', '0', '2', '9']
  else [c]

/-- The JSON text of a Go string. -/
def marshalString (s : String) : String :=
  String.mk ('"' :: (s.data.flatMap escapeChar ++ ['"']))

/-- Go `Time.MarshalJSON`: the quoted RFC 3339 text, or an error when the year
is outside `[0, 9999]`. -/
def marshalTime (t : Time) : Except String String :=
  if t.year < 0 ∨ t.year > 9999 then
    Except.error "Time.MarshalJSON: year outside of range [0,9999]"
  else Except.ok ("\"" ++ t.rfc3339 ++ "\"")

/-- The JSON object of one `PDFInfo`: the exported fields in declaration
order, under their Go names (the struct has no tags). -/
def marshalPDFInfo (p : PDFInfo) : Except String String :=
  match marshalTime p.ModTime with
  | Except.error e => Except.error e
  | Except.ok t =>
    Except.ok ("\x7b\"Name\":" ++ marshalString p.Name ++ ",\"Size\":" ++ toString p.Size ++
      ",\"ModTime\":" ++ t ++ ",\"URL\":" ++ marshalString p.URL ++ "\x7d")

/-- The JSON objects of the elements, stopping at the first error. -/
def marshalElems : List PDFInfo → Except String (List String)
  | [] => Except.ok []
  | p :: ps =>
    match marshalPDFInfo p with
    | Except.error e => Except.error e
    | Except.ok x =>
      match marshalElems ps with
      | Except.error e => Except.error e
      | Except.ok xs => Except.ok (x :: xs)

/-- Go `json.Marshal` of a `[]PDFInfo`: a nil slice is written as `null`, any
other slice as an array. -/
def marshalSlice : Slice PDFInfo → Except String String
  | Slice.nil => Except.ok "null"
  | Slice.elems ps =>
    match marshalElems ps with
    | Except.error e => Except.error e
    | Except.ok xs => Except.ok ("[" ++ ",".intercalate xs ++ "]")

/-- Go `json.NewEncoder(w).Encode(v)`: the JSON text and a newline are
written in one `Write`; when marshalling fails nothing is written. -/
def Encode (w : ResponseWriter) (v : Slice PDFInfo) : ResponseWriter :=
  match marshalSlice v with
  | Except.error _ => w
  | Except.ok text => w.Write (text ++ "\n")

/-! ## The handler -/

/-- The part of an `*http.Request` a handler can read. -/
structure Request where
  Method : String
  Path : String
  RawQuery : String
  Header : Header
  Body : String
  deriving DecidableEq

/-- The handler `listPDFsHandler(w, r)` of the source, run on the file system
`fs`.  The calls to `log.Println` write to the process log only and are left
out. -/
def listPDFsHandler (fs : FileSystem) (w : ResponseWriter) (_r : Request) : ResponseWriter :=
  match fs.ReadDir pdfDir with
  | (_, some _) => Error w "failed to read pdf directory" StatusInternalServerError
  | (entries, none) =>
    let pdfs := listPDFsHandler_pdfs fs entries
    let w1 := w.HeaderSet "Content-Type" "application/json"
    let w2 := w1.HeaderSet "Access-Control-Allow-Origin" "*"
    Encode w2 pdfs

/-- The response of the listing endpoint to the request `r`: the handler is
run on a new writer and the server completes the reply. -/
def listResponse (fs : FileSystem) (r : Request) : Response :=
  (listPDFsHandler fs ResponseWriter.new r).finish

/-! ## The routes registered by `main`

`main` registers `listPDFsHandler` under the pattern `/api/pdfs` and
`http.StripPrefix("/pdfs/", http.FileServer(http.Dir(pdfDir)))` under the
pattern `/pdfs/`.  The model follows one `GET` request from its request line
to the reply.  It covers request targets in origin form (starting with `/`)
whose percent-escapes stand for printable ASCII characters other than `.` and
`/`, sent with well-formed headers and without conditional or range headers;
any other request has no reply in the model (`none`). -/

/-- Go `strings.Cut` for a one-character separator: the text before the first
separator and, when there is one, the text after it. -/
def cutAt (sep : Char) : List Char → List Char × Option (List Char)
  | [] => ([], none)
  | c :: cs =>
    if c = sep then ([], some cs)
    else ((c :: (cutAt sep cs).1), (cutAt sep cs).2)

/-- Go `parseRequestLine`: method, request target and protocol, cut at the
first and at the second space. -/
def parseRequestLine (line : String) : Option (String × String × String) :=
  match cutAt ' ' line.data with
  | (_, none) => none
  | (method, some rest) =>
    match cutAt ' ' rest with
    | (_, none) => none
    | (requestURI, some proto) => some (String.mk method, String.mk requestURI, String.mk proto)

/-- Why a request target has no parsed form: Go rejects it, or it lies outside
the targets the model covers. -/
inductive UrlError where
  | invalid
  | unmodelled
  deriving DecidableEq

/-- Go `ishex`. -/
def ishex (c : Char) : Bool :=
  ('0' ≤ c ∧ c ≤ '9') ∨ ('a' ≤ c ∧ c ≤ 'f') ∨ ('A' ≤ c ∧ c ≤ 'F')

/-- Go `unhex`: the value of a hexadecimal digit. -/
def unhex (c : Char) : Nat :=
  if '0' ≤ c ∧ c ≤ '9' then c.toNat - 48
  else if 'a' ≤ c ∧ c ≤ 'f' then c.toNat - 97 + 10
  else if 'A' ≤ c ∧ c ≤ 'F' then c.toNat - 65 + 10
  else 0

/-- Go `unescape(s, encodePath)`: every `%` must be followed by two
hexadecimal digits and stands for the byte they name.  Escapes of bytes
outside the printable ASCII range, of `.` and of `/` are left to
`UrlError.unmodelled`. -/
def unescape : List Char → Except UrlError (List Char)
  | [] => Except.ok []
  | c :: rest =>
    if c = '%' then
      match rest with
      | a :: b :: rest2 =>
        if ishex a ∧ ishex b then
          if 32 ≤ unhex a * 16 + unhex b ∧ unhex a * 16 + unhex b < 127 ∧
              unhex a * 16 + unhex b ≠ 46 ∧ unhex a * 16 + unhex b ≠ 47 then
            match unescape rest2 with
            | Except.ok s => Except.ok (Char.ofNat (unhex a * 16 + unhex b) :: s)
            | Except.error e => Except.error e
          else Except.error UrlError.unmodelled
        else Except.error UrlError.invalid
      | _ => Except.error UrlError.invalid
    else
      match unescape rest with
      | Except.ok s => Except.ok (c :: s)
      | Except.error e => Except.error e

/-- The fields of a parsed request target (`url.URL`) that the routes read:
the decoded path, the path as it was sent, and the query. -/
structure URL where
  Path : String
  Raw : String
  RawQuery : String
  deriving DecidableEq

/-- Go `url.ParseRequestURI` on an origin-form target: control characters are
rejected, the target is cut at the first `?` into path and query (a `#` is not
special here), and the path is unescaped. -/
def ParseRequestURI (rawURL : String) : Except UrlError URL :=
  if rawURL.data.any (fun c => c.toNat < 32 ∨ c.toNat = 127) then Except.error UrlError.invalid
  else match rawURL.data with
    | [] => Except.error UrlError.invalid
    | c :: _ =>
      if c ≠ '/' then Except.error UrlError.unmodelled
      else
        let parts := cutAt '?' rawURL.data
        match unescape parts.1 with
        | Except.error e => Except.error e
        | Except.ok path =>
          Except.ok { Path := String.mk path, Raw := String.mk parts.1,
                      RawQuery := String.mk (parts.2.getD []) }

/-- What the server answers to a request. -/
inductive Reply where
  /-- The reply written by `listPDFsHandler`. -/
  | handled (resp : Response)
  /-- Status 200 with the bytes of a file. -/
  | file (content : List Nat)
  /-- Status 200 with the index page or the generated listing of a directory. -/
  | directory
  /-- Status 301. -/
  | redirect
  /-- Status 400. -/
  | badRequest
  /-- Status 403. -/
  | forbidden
  /-- Status 404. -/
  | notFound
  /-- Status 500. -/
  | serverError
  deriving DecidableEq

/-- The status code of a reply. -/
def Reply.StatusCode : Reply → Nat
  | Reply.handled resp => resp.StatusCode
  | Reply.file _ => 200
  | Reply.directory => 200
  | Reply.redirect => 301
  | Reply.badRequest => 400
  | Reply.forbidden => 403
  | Reply.notFound => 404
  | Reply.serverError => 500

/-- Go `toHTTPError`: the reply of the file server to a failed file-system
call. -/
def toHTTPError : PathError → Reply
  | PathError.notExist => Reply.notFound
  | PathError.permission => Reply.forbidden
  | PathError.other => Reply.serverError

/-- The file name `http.Dir(root).Open(name)` opens. -/
def dirFullName (root name : String) : String :=
  let rel := (Clean ("/" ++ name)).drop 1
  filepathJoin (if root = "" then "." else root) (if rel = "" then "." else rel)

/-- Go `serveFile` with `redirect = true`, for the URL path `upath` and the
cleaned name `name`: a path ending in `/index.html` is redirected; a file that
cannot be opened gives the error reply; a directory is redirected to the form
with a final slash or shown; a file asked for with a final slash is
redirected; otherwise the bytes of the file are sent. -/
def serveFile (fs : FileSystem) (root name upath : String) : Reply :=
  if hasSuffix upath "/index.html" then Reply.redirect
  else
    match fs.Open (dirFullName root name) with
    | Except.error e => toHTTPError e
    | Except.ok content =>
      match fs.Stat (dirFullName root name) with
      | Except.error e => toHTTPError e
      | Except.ok d =>
        if d.IsDir then
          (if hasSuffix upath "/" then Reply.directory else Reply.redirect)
        else if hasSuffix upath "/" then Reply.redirect
        else Reply.file content

/-- The handler `http.FileServer(http.Dir(root))` on a request whose URL path
is `path`. -/
def FileServer (fs : FileSystem) (root path : String) : Reply :=
  let upath := if path.data.head? = some '/' then path else "/" ++ path
  serveFile fs root (Clean upath) upath

/-- Go `strings.TrimPrefix`. -/
def trimPrefix (s pre : String) : String :=
  if pre.data <+: s.data then String.mk (s.data.drop pre.data.length) else s

/-- The handler `http.StripPrefix(pre, h)`: the request is passed on with the
prefix removed from its path when both the decoded path and the path as sent
begin with the prefix, and is answered 404 otherwise. -/
def stripPrefixHandler (pre : String) (h : String → Reply) (u : URL) : Reply :=
  if (trimPrefix u.Path pre).length < u.Path.length ∧
      (trimPrefix u.Raw pre).length < u.Raw.length then
    h (trimPrefix u.Path pre)
  else Reply.notFound

/-- Go `cleanPath` of the request multiplexer: the cleaned path, with the
final slash kept. -/
def cleanPath (p : String) : String :=
  if p = "" then "/"
  else
    let p1 := if p.data.head? = some '/' then p else "/" ++ p
    let np := Clean p1
    if hasSuffix p1 "/" ∧ np ≠ "/" then np ++ "/" else np

/-- The multiplexer of `main` on a parsed `GET` request: `/pdfs` is redirected
to `/pdfs/`, a path that is not clean is redirected to its clean form,
`/api/pdfs` goes to `listPDFsHandler`, a path under `/pdfs/` goes to the file
server through `StripPrefix`, and every other path is answered 404. -/
def serveMux (fs : FileSystem) (u : URL) : Reply :=
  if cleanPath u.Path = "/pdfs" then Reply.redirect
  else if cleanPath u.Path ≠ u.Path then Reply.redirect
  else if u.Path = "/api/pdfs" then
    Reply.handled (listResponse fs
      { Method := "GET", Path := u.Path, RawQuery := u.RawQuery, Header := [], Body := "" })
  else if "/pdfs/".data <+: u.Path.data then
    stripPrefixHandler "/pdfs/" (FileServer fs pdfDir) u
  else Reply.notFound

/-- The reply of the server started by `main` to the request line `line`: a
line that does not split into method, target and protocol version, or whose
target does not parse, is answered 400 before any handler runs. -/
def serve (fs : FileSystem) (line : String) : Option Reply :=
  match parseRequestLine line with
  | none => some Reply.badRequest
  | some (method, requestURI, proto) =>
    if proto ≠ "HTTP/1.1" ∧ proto ≠ "HTTP/1.0" then
      (if proto.length = 8 ∧ "HTTP/".data <+: proto.data then none else some Reply.badRequest)
    else if method ≠ "GET" then none
    else
      match ParseRequestURI requestURI with
      | Except.error UrlError.invalid => some Reply.badRequest
      | Except.error UrlError.unmodelled => none
      | Except.ok u => some (serveMux fs u)

/-- The request line of a `GET` of `target` over HTTP/1.1, the target sent as
it is. -/
def getLine (target : String) : String :=
  "GET " ++ target ++ " HTTP/1.1"

/-! ## The selection rule in the words of the specification -/

/-- The selection rule in the words of the specification: an entry is listed
when it is not a directory, its name ends in `.pdf` and its metadata query
succeeds; the element then carries the name of the entry, the size and the
modification time of the metadata, and the fixed prefix followed by the name. -/
def specEntry (fs : FileSystem) (e : DirEntry) : Option PDFInfo :=
  if e.IsDir = false ∧ hasSuffix e.Name ".pdf" then
    match fs.Stat (filepathJoin pdfDir e.Name) with
    | Except.ok info =>
      some { Name := e.Name, Size := info.Size, ModTime := info.ModTime,
             URL := "/pdfs/" ++ e.Name }
    | Except.error _ => none
  else none

/-! ## Concrete directories -/

/-- A modification time used in the examples. -/
def noon : Time := { year := 2024, rfc3339 := "2024-05-01T12:00:00Z" }

/-- The metadata of a regular file of `size` bytes. -/
def fileInfo (size : Int) : FileInfo := { Size := size, ModTime := noon, IsDir := false }

/-- The metadata of a directory. -/
def dirInfo : FileInfo := { Size := 4096, ModTime := noon, IsDir := true }

/-- A file system whose directory `./pdfs` enumerates as `entries` (with the
error `err`), and in which exactly the paths of `nodes` exist, each with its
metadata and its bytes. -/
def mkFS (entries : List DirEntry) (err : Option PathError)
    (nodes : List (String × FileInfo × List Nat)) : FileSystem where
  ReadDir := fun _ => (entries, err)
  Stat := fun path =>
    match nodes.find? (fun n => n.1 = path) with
    | some n => Except.ok n.2.1
    | none => Except.error PathError.notExist
  Open := fun path =>
    match nodes.find? (fun n => n.1 = path) with
    | some n => Except.ok n.2.2
    | none => Except.error PathError.notExist

/-- The entries `a.pdf`, `b.pdf`, `notes.txt`, all regular files. -/
def threeEntries : List DirEntry :=
  [⟨"a.pdf", FileType.regular⟩, ⟨"b.pdf", FileType.regular⟩, ⟨"notes.txt", FileType.regular⟩]

/-- A directory holding `a.pdf`, `b.pdf` and `notes.txt`. -/
def fsThree : FileSystem :=
  mkFS threeEntries none
    [("pdfs/a.pdf", fileInfo 3, [1, 2, 3]), ("pdfs/b.pdf", fileInfo 2, [4, 5]),
     ("pdfs/notes.txt", fileInfo 1, [6])]

/-- The entries `a.pdf`, a subdirectory `sub.pdf`, and `x.PDF`. -/
def mixedEntries : List DirEntry :=
  [⟨"a.pdf", FileType.regular⟩, ⟨"sub.pdf", FileType.dir⟩, ⟨"x.PDF", FileType.regular⟩]

/-- A directory holding `a.pdf`, the subdirectory `sub.pdf` and `x.PDF`. -/
def fsMixed : FileSystem :=
  mkFS mixedEntries none
    [("pdfs/a.pdf", fileInfo 3, [1, 2, 3]), ("pdfs/sub.pdf", dirInfo, []),
     ("pdfs/x.PDF", fileInfo 1, [7])]

/-- An empty directory `./pdfs`. -/
def fsEmpty : FileSystem := mkFS [] none [("pdfs", dirInfo, [])]

/-- A file system without the directory `./pdfs`. -/
def fsMissing : FileSystem := mkFS [] (some PathError.notExist) []

/-- The entry `gone.pdf`, enumerated but no longer present when it is looked
up. -/
def goneEntry : DirEntry := ⟨"gone.pdf", FileType.regular⟩

/-- A directory holding `a.pdf` and `b.pdf`, in which `gone.pdf` was removed
after the enumeration. -/
def fsGone : FileSystem :=
  mkFS [⟨"a.pdf", FileType.regular⟩, goneEntry, ⟨"b.pdf", FileType.regular⟩] none
    [("pdfs/a.pdf", fileInfo 3, [1, 2, 3]), ("pdfs/b.pdf", fileInfo 2, [4, 5])]

/-- The entries of a directory holding a symbolic link `link.pdf` and a named
pipe `pipe.pdf`. -/
def linkEntries : List DirEntry :=
  [⟨"link.pdf", FileType.symlink⟩, ⟨"pipe.pdf", FileType.namedPipe⟩]

/-- A directory in which `link.pdf` is a symbolic link to a directory and
`pipe.pdf` is a named pipe. -/
def fsLink : FileSystem :=
  mkFS linkEntries none [("pdfs/link.pdf", dirInfo, []), ("pdfs/pipe.pdf", fileInfo 0, [])]

/-- The bytes of the file `a?b.pdf` in the example below. -/
def queryBytes : List Nat := [37, 80, 68, 70]

/-- A directory holding the single regular file `a?b.pdf`. -/
def fsQuery : FileSystem :=
  mkFS [⟨"a?b.pdf", FileType.regular⟩] none
    [("pdfs", dirInfo, []), ("pdfs/a?b.pdf", fileInfo 4, queryBytes)]

/-- A request for the listing. -/
def plainGet : Request :=
  { Method := "GET", Path := "/api/pdfs", RawQuery := "", Header := [], Body := "" }

/-- Another request for the listing: a different method, a query, a header and
a body. -/
def otherRequest : Request :=
  { Method := "POST", Path := "/api/pdfs", RawQuery := "sort=name",
    Header := [("Origin", "https://example.org")], Body := "x" }

/-- The headers the handler sets before it encodes the listing. -/
def jsonHeader : Header :=
  [("Content-Type", "application/json"), ("Access-Control-Allow-Origin", "*")]

/-- The headers `http.Error` sets. -/
def errorHeader : Header :=
  [("Content-Type", "text/plain; charset=utf-8"), ("X-Content-Type-Options", "nosniff")]

/-! ## Lemmas on the loop -/

theorem extScan_some (rev acc s : List Char) (h : extScan rev acc = some s) :
    ∃ pre rest, rev = pre ++ '.' :: rest ∧ s = '.' :: (pre.reverse ++ acc) := by
  induction rev generalizing acc with
  | nil => simp [extScan] at h
  | cons c rev ih =>
    unfold extScan at h
    split_ifs at h with h1 h2
    · subst h2
      refine ⟨[], rev, rfl, ?_⟩
      simpa using h.symm
    · obtain ⟨pre, rest, hrev, hs⟩ := ih (c :: acc) h
      refine ⟨c :: pre, rest, by simp [hrev], ?_⟩
      simp [hs]

/-- The extension is `.pdf` exactly when the name ends in `.pdf`. -/
theorem Ext_eq_pdf_iff (name : String) : Ext name = ".pdf" ↔ hasSuffix name ".pdf" := by
  unfold Ext hasSuffix
  constructor
  · intro h
    cases hscan : extScan name.data.reverse [] with
    | none => rw [hscan] at h; exact absurd h (by decide)
    | some ext =>
      rw [hscan] at h
      have hext : ext = ['.', 'p', 'd', 'f'] := by
        have := congrArg String.data h
        simpa using this
      obtain ⟨pre, rest, hrev, hs⟩ := extScan_some _ _ _ hscan
      rw [hext] at hs
      have hpre : pre.reverse = ['p', 'd', 'f'] := by simpa using hs.symm
      have hpre2 : pre = ['f', 'd', 'p'] := by
        have := congrArg List.reverse hpre
        simpa using this
      subst hpre2
      have hdata : name.data = rest.reverse ++ ['.', 'p', 'd', 'f'] := by
        have := congrArg List.reverse hrev
        simpa using this
      exact ⟨rest.reverse, hdata.symm⟩
  · rintro ⟨t, ht⟩
    have hrev : name.data.reverse = 'f' :: 'd' :: 'p' :: '.' :: t.reverse := by
      rw [← ht]; simp
    rw [hrev]
    simp [extScan]

/-- One turn of the loop appends the element of the selection rule, if any. -/
theorem step_eq (fs : FileSystem) (pdfs : Slice PDFInfo) (e : DirEntry) :
    listPDFsHandler_step fs pdfs e =
      match specEntry fs e with
      | some p => pdfs.append p
      | none => pdfs := by
  unfold listPDFsHandler_step specEntry
  by_cases hd : e.IsDir = true
  · simp [hd]
  · by_cases hx : Ext e.Name = ".pdf"
    · have hs := (Ext_eq_pdf_iff e.Name).1 hx
      simp only [hd, hx, hs]
      cases fs.Stat (filepathJoin pdfDir e.Name) <;> simp
    · have hs : ¬ hasSuffix e.Name ".pdf" := fun h => hx ((Ext_eq_pdf_iff e.Name).2 h)
      simp [hd, hx, hs]

theorem foldl_step_toList (fs : FileSystem) (entries : List DirEntry) (acc : Slice PDFInfo) :
    (entries.foldl (listPDFsHandler_step fs) acc).toList =
      acc.toList ++ entries.filterMap (specEntry fs) := by
  induction entries generalizing acc with
  | nil => simp
  | cons e es ih =>
    rw [List.foldl_cons, ih, step_eq]
    cases h : specEntry fs e with
    | none => simp [List.filterMap_cons, h]
    | some p => simp [List.filterMap_cons, h, Slice.append, Slice.toList]

/-- The elements of `pdfs` after the loop are the elements the selection rule
gives, in the order of the entries. -/
theorem pdfs_toList (fs : FileSystem) (entries : List DirEntry) :
    (listPDFsHandler_pdfs fs entries).toList = entries.filterMap (specEntry fs) := by
  unfold listPDFsHandler_pdfs
  rw [foldl_step_toList]
  simp [Slice.toList]

theorem foldl_step_skip (fs : FileSystem) (entries : List DirEntry) (acc : Slice PDFInfo)
    (h : entries.filterMap (specEntry fs) = []) :
    entries.foldl (listPDFsHandler_step fs) acc = acc := by
  induction entries generalizing acc with
  | nil => rfl
  | cons e es ih =>
    rw [List.foldl_cons, step_eq]
    cases he : specEntry fs e with
    | none =>
      rw [List.filterMap_cons, he] at h
      exact ih acc h
    | some p => simp [List.filterMap_cons, he] at h

/-- The slice stays nil when no entry is selected, and is the non-nil slice of
the selected elements otherwise. -/
theorem pdfs_eq (fs : FileSystem) (entries : List DirEntry) :
    listPDFsHandler_pdfs fs entries =
      if entries.filterMap (specEntry fs) = [] then Slice.nil
      else Slice.elems (entries.filterMap (specEntry fs)) := by
  split_ifs with h
  · exact foldl_step_skip fs entries Slice.nil h
  · have ht := pdfs_toList fs entries
    cases hp : listPDFsHandler_pdfs fs entries with
    | nil => rw [hp] at ht; exact absurd ht.symm h
    | elems xs => rw [hp] at ht; simpa [Slice.toList] using ht

/-- An entry whose `os.Stat` fails is not selected. -/
theorem specEntry_stat_error (fs : FileSystem) (e : DirEntry) (err : PathError)
    (h : fs.Stat (filepathJoin pdfDir e.Name) = Except.error err) : specEntry fs e = none := by
  unfold specEntry
  split_ifs <;> simp [h]

/-- What the selection rule gives carries the name of the entry. -/
theorem specEntry_some (fs : FileSystem) (e : DirEntry) (p : PDFInfo)
    (h : specEntry fs e = some p) :
    e.IsDir = false ∧ hasSuffix e.Name ".pdf" ∧
      ∃ info, fs.Stat (filepathJoin pdfDir e.Name) = Except.ok info ∧
        p = { Name := e.Name, Size := info.Size, ModTime := info.ModTime,
              URL := "/pdfs/" ++ e.Name } := by
  unfold specEntry at h
  split_ifs at h with hc
  cases hs : fs.Stat (filepathJoin pdfDir e.Name) with
  | error err => simp [hs] at h
  | ok info =>
    simp only [hs, Option.some.injEq] at h
    exact ⟨hc.1, hc.2, info, rfl, h.symm⟩

/-! ## Lemmas on the response -/

/-- The response when the directory is read: status 200, the two headers of
the handler, and the JSON text followed by a newline (nothing when the
encoding fails). -/
theorem listResponse_ok (fs : FileSystem) (r : Request) (entries : List DirEntry)
    (h : fs.ReadDir pdfDir = (entries, none)) :
    listResponse fs r =
      { StatusCode := 200, Header := jsonHeader,
        Body := match marshalSlice (listPDFsHandler_pdfs fs entries) with
          | Except.ok text => text ++ "\n"
          | Except.error _ => "" } := by
  unfold listResponse listPDFsHandler
  rw [h]
  simp only [Encode]
  cases marshalSlice (listPDFsHandler_pdfs fs entries) with
  | error e => rfl
  | ok text =>
    simp [ResponseWriter.finish, ResponseWriter.Write, ResponseWriter.WriteHeader,
      ResponseWriter.HeaderSet, ResponseWriter.new, Header.Set, jsonHeader]

/-- The response when the directory cannot be read. -/
theorem listResponse_error (fs : FileSystem) (r : Request) (entries : List DirEntry)
    (err : PathError) (h : fs.ReadDir pdfDir = (entries, some err)) :
    listResponse fs r =
      { StatusCode := 500, Header := errorHeader, Body := "failed to read pdf directory\n" } := by
  unfold listResponse listPDFsHandler
  rw [h]
  rfl

/-- On the success path the response carries `Access-Control-Allow-Origin: *`
and declares JSON. -/
theorem listResponse_ok_header (fs : FileSystem) (r : Request) (entries : List DirEntry)
    (h : fs.ReadDir pdfDir = (entries, none)) :
    (listResponse fs r).Header.Get "Access-Control-Allow-Origin" = "*" ∧
    (listResponse fs r).Header.Get "Content-Type" = "application/json" := by
  rw [listResponse_ok fs r entries h]
  exact ⟨rfl, rfl⟩

/-- Whenever the directory is read and no entry is selected, the response is
status 200 with the body `null` and a newline. -/
theorem listResponse_nothing_selected (fs : FileSystem) (r : Request)
    (entries : List DirEntry) (h : fs.ReadDir pdfDir = (entries, none))
    (hnone : ∀ e ∈ entries, specEntry fs e = none) :
    listResponse fs r = { StatusCode := 200, Header := jsonHeader, Body := "null\n" } := by
  have hf : entries.filterMap (specEntry fs) = [] := by
    rw [List.filterMap_eq_nil_iff]
    exact hnone
  rw [listResponse_ok fs r entries h, pdfs_eq, if_pos hf]
  rfl

/-! ## The claims -/

/-- C1: the listing built by `listPDFsHandler` has one element for each
directory entry that is not a directory, whose name ends in `.pdf` (which is
the same as `filepath.Ext` being `.pdf`) and whose stat succeeds, and no other
element.  For `a.pdf`, `b.pdf`, `notes.txt` it is exactly `a.pdf`, `b.pdf`; a
directory `sub.pdf` and a file `x.PDF` are left out. -/
theorem listing_selects_exactly_pdf_files (fs : FileSystem) (entries : List DirEntry) :
    (listPDFsHandler_pdfs fs entries).toList = entries.filterMap (specEntry fs) ∧
    (∀ p : PDFInfo, p ∈ (listPDFsHandler_pdfs fs entries).toList ↔
      ∃ e ∈ entries, e.IsDir = false ∧ hasSuffix e.Name ".pdf" ∧
        ∃ info, fs.Stat (filepathJoin pdfDir e.Name) = Except.ok info ∧
          p = { Name := e.Name, Size := info.Size, ModTime := info.ModTime,
                URL := "/pdfs/" ++ e.Name }) ∧
    (∀ name : String, Ext name = ".pdf" ↔ hasSuffix name ".pdf") ∧
    (listPDFsHandler_pdfs fsThree threeEntries).toList =
      [⟨"a.pdf", 3, noon, "/pdfs/a.pdf"⟩, ⟨"b.pdf", 2, noon, "/pdfs/b.pdf"⟩] ∧
    (listPDFsHandler_pdfs fsMixed mixedEntries).toList = [⟨"a.pdf", 3, noon, "/pdfs/a.pdf"⟩] := by
  refine ⟨pdfs_toList fs entries, ?_, Ext_eq_pdf_iff, by decide, by decide⟩
  intro p
  rw [pdfs_toList, List.mem_filterMap]
  constructor
  · rintro ⟨e, he, hp⟩
    obtain ⟨hd, hs, info, hi, hpe⟩ := specEntry_some fs e p hp
    exact ⟨e, he, hd, hs, info, hi, hpe⟩
  · rintro ⟨e, he, hd, hs, info, hi, hpe⟩
    refine ⟨e, he, ?_⟩
    unfold specEntry
    simp [hd, hs, hi, hpe]

/-- C2: for the empty directory the handler answers status 200 with the body
`null` followed by a newline, not with the empty JSON array. -/
theorem empty_directory_body_is_null :
    fsEmpty.ReadDir pdfDir = ([], none) ∧
    listResponse fsEmpty plainGet =
      { StatusCode := 200, Header := jsonHeader, Body := "null\n" } ∧
    (listResponse fsEmpty plainGet).Body ≠ "[]" ∧
    (listResponse fsEmpty plainGet).Body ≠ "[]\n" := by
  decide

/-- C3: when the directory cannot be read the response is the 500 reply of
`http.Error`, whose headers do not include `Access-Control-Allow-Origin`. -/
theorem read_failure_response_lacks_cors_header :
    (fsMissing.ReadDir pdfDir).2 = some PathError.notExist ∧
    (listResponse fsMissing plainGet).StatusCode = 500 ∧
    (listResponse fsMissing plainGet).Header = errorHeader ∧
    (listResponse fsMissing plainGet).Header.Has "Access-Control-Allow-Origin" = false ∧
    (listResponse fsMissing plainGet).Header.Get "Access-Control-Allow-Origin" ≠ "*" := by
  decide

/-- C4: the status is 500 exactly when `os.ReadDir` returns an error; the body
is then the line `failed to read pdf directory`, served as plain text, and it
is not empty; when the directory is read the status is 200, whatever the
stat calls return. -/
theorem status_500_iff_read_fails (fs : FileSystem) (r : Request) :
    ((listResponse fs r).StatusCode = 500 ↔ (fs.ReadDir pdfDir).2 ≠ none) ∧
    ((fs.ReadDir pdfDir).2 ≠ none →
      (listResponse fs r).Body = "failed to read pdf directory\n" ∧
      (listResponse fs r).Body ≠ "" ∧
      (listResponse fs r).Header.Get "Content-Type" = "text/plain; charset=utf-8") ∧
    ((fs.ReadDir pdfDir).2 = none → (listResponse fs r).StatusCode = 200) := by
  cases h : fs.ReadDir pdfDir with
  | mk entries err =>
    cases err with
    | none =>
      rw [listResponse_ok fs r entries h]
      simp
    | some e =>
      rw [listResponse_error fs r entries e h]
      simp [errorHeader, Header.Get]

/-- C5: an entry whose stat fails only drops out of the listing: the slice
built for `xs ++ [e] ++ ys` is the slice built for `xs ++ ys`, and the
response for the longer enumeration is the response for the shorter one, a
200 reply declared as JSON. -/
theorem stat_failure_only_drops_the_entry (fs : FileSystem) (xs ys : List DirEntry)
    (e : DirEntry) (err : PathError) (r : Request)
    (h : fs.Stat (filepathJoin pdfDir e.Name) = Except.error err) :
    listPDFsHandler_pdfs fs (xs ++ [e] ++ ys) = listPDFsHandler_pdfs fs (xs ++ ys) ∧
    listResponse { fs with ReadDir := fun _ => (xs ++ [e] ++ ys, none) } r =
      listResponse { fs with ReadDir := fun _ => (xs ++ ys, none) } r ∧
    (listResponse { fs with ReadDir := fun _ => (xs ++ [e] ++ ys, none) } r).StatusCode = 200 ∧
    (listResponse { fs with ReadDir := fun _ => (xs ++ [e] ++ ys, none) } r).Header.Get
      "Content-Type" = "application/json" := by
  have hnone := specEntry_stat_error fs e err h
  have hl : listPDFsHandler_pdfs fs (xs ++ [e] ++ ys) = listPDFsHandler_pdfs fs (xs ++ ys) := by
    rw [pdfs_eq, pdfs_eq]
    simp [List.filterMap_append, hnone]
  have hpdfs : ∀ (zs ws : List DirEntry),
      listPDFsHandler_pdfs { fs with ReadDir := fun _ => (ws, none) } zs =
        listPDFsHandler_pdfs fs zs := fun _ _ => rfl
  refine ⟨hl, ?_, ?_, ?_⟩
  · rw [listResponse_ok _ r (xs ++ [e] ++ ys) rfl, listResponse_ok _ r (xs ++ ys) rfl,
      hpdfs, hpdfs, hl]
  · rw [listResponse_ok _ r (xs ++ [e] ++ ys) rfl]
  · rw [listResponse_ok _ r (xs ++ [e] ++ ys) rfl]
    rfl

/-- Witness of C5: `gone.pdf`, between `a.pdf` and `b.pdf`, has a failing
stat. -/
theorem stat_failure_only_drops_the_entry_witness :
    fsGone.Stat (filepathJoin pdfDir goneEntry.Name) = Except.error PathError.notExist ∧
    (listPDFsHandler_pdfs fsGone
        ([⟨"a.pdf", FileType.regular⟩] ++ [goneEntry] ++ [⟨"b.pdf", FileType.regular⟩]) =
      listPDFsHandler_pdfs fsGone
        ([⟨"a.pdf", FileType.regular⟩] ++ [⟨"b.pdf", FileType.regular⟩])) :=
  ⟨by decide,
   (stat_failure_only_drops_the_entry fsGone [⟨"a.pdf", FileType.regular⟩]
      [⟨"b.pdf", FileType.regular⟩] goneEntry PathError.notExist plainGet (by decide)).1⟩

/-- C6: every element of the listing was built from a directory entry whose
stat succeeded: its `Name` is the name of that entry, its `Size` and `ModTime`
are those of the stat result, and its `URL` is `/pdfs/` followed by its
`Name`; two elements with the same `URL` have the same `Name`. -/
theorem listed_fields_come_from_entry_and_stat (fs : FileSystem) (entries : List DirEntry)
    (p : PDFInfo) (hp : p ∈ (listPDFsHandler_pdfs fs entries).toList) :
    (∃ e ∈ entries, ∃ info, fs.Stat (filepathJoin pdfDir e.Name) = Except.ok info ∧
      p.Name = e.Name ∧ p.Size = info.Size ∧ p.ModTime = info.ModTime) ∧
    p.URL = "/pdfs/" ++ p.Name ∧
    (∀ q ∈ (listPDFsHandler_pdfs fs entries).toList, q.URL = p.URL → q.Name = p.Name) := by
  have hurl : ∀ q ∈ (listPDFsHandler_pdfs fs entries).toList, q.URL = "/pdfs/" ++ q.Name := by
    intro q hq
    rw [pdfs_toList, List.mem_filterMap] at hq
    obtain ⟨e, _, hq⟩ := hq
    obtain ⟨_, _, info, _, hqe⟩ := specEntry_some fs e q hq
    rw [hqe]
  refine ⟨?_, hurl p hp, ?_⟩
  · rw [pdfs_toList, List.mem_filterMap] at hp
    obtain ⟨e, he, hp⟩ := hp
    obtain ⟨_, _, info, hi, hpe⟩ := specEntry_some fs e p hp
    exact ⟨e, he, info, hi, by rw [hpe], by rw [hpe], by rw [hpe]⟩
  · intro q hq hqp
    rw [hurl q hq, hurl p hp] at hqp
    have hdata := congrArg String.data hqp
    simp only [String.data_append, List.append_cancel_left_eq] at hdata
    exact String.ext hdata

/-- Witness of C6: the element for `b.pdf` in the directory of three files. -/
theorem listed_fields_come_from_entry_and_stat_witness :
    (⟨"b.pdf", 2, noon, "/pdfs/b.pdf"⟩ : PDFInfo) ∈
        (listPDFsHandler_pdfs fsThree threeEntries).toList ∧
      (⟨"b.pdf", 2, noon, "/pdfs/b.pdf"⟩ : PDFInfo).URL =
        "/pdfs/" ++ (⟨"b.pdf", 2, noon, "/pdfs/b.pdf"⟩ : PDFInfo).Name :=
  ⟨by decide,
   (listed_fields_come_from_entry_and_stat fsThree threeEntries
      ⟨"b.pdf", 2, noon, "/pdfs/b.pdf"⟩ (by decide)).2.1⟩

/-- C7: the names in the listing are a sublist of the names returned by the
directory read, in the same relative order, so the listing is never longer
than the enumeration. -/
theorem listing_names_sublist_of_entry_names (fs : FileSystem) (entries : List DirEntry) :
    List.Sublist ((listPDFsHandler_pdfs fs entries).toList.map PDFInfo.Name)
      (entries.map DirEntry.Name) ∧
    (listPDFsHandler_pdfs fs entries).toList.length ≤ entries.length := by
  rw [pdfs_toList]
  refine ⟨?_, List.length_filterMap_le _ _⟩
  induction entries with
  | nil => simp
  | cons e es ih =>
    rw [List.filterMap_cons]
    cases he : specEntry fs e with
    | none => exact List.Sublist.cons _ ih
    | some p =>
      obtain ⟨_, _, info, _, hpe⟩ := specEntry_some fs e p he
      have hn : p.Name = e.Name := by rw [hpe]
      simp only [List.map_cons, hn]
      exact List.Sublist.cons₂ _ ih

/-- C8: for the file `a?b.pdf` the listing gives the URL `/pdfs/a?b.pdf`; a
GET of that URL is parsed as path `/pdfs/a` with query `b.pdf` and is answered
404, although the file can be opened under its name.  (The URL of `a.pdf` in
the directory of three files is answered with the bytes of that file.) -/
theorem listed_url_with_query_mark_is_not_found :
    (listPDFsHandler_pdfs fsQuery (fsQuery.ReadDir pdfDir).1).toList =
      [⟨"a?b.pdf", 4, noon, "/pdfs/a?b.pdf"⟩] ∧
    fsQuery.Open (filepathJoin pdfDir "a?b.pdf") = Except.ok queryBytes ∧
    ParseRequestURI "/pdfs/a?b.pdf" =
      Except.ok { Path := "/pdfs/a", Raw := "/pdfs/a", RawQuery := "b.pdf" } ∧
    serve fsQuery (getLine "/pdfs/a?b.pdf") = some Reply.notFound ∧
    Reply.notFound.StatusCode = 404 ∧
    serve fsThree (getLine "/pdfs/a.pdf") = some (Reply.file [1, 2, 3]) := by
  decide

/-- C9, as the code has it: the listing of a directory holding a symbolic link
`link.pdf` to a directory and a named pipe `pipe.pdf` contains both, and
neither entry is a regular file. -/
theorem non_regular_entries_are_listed :
    (listPDFsHandler_pdfs fsLink linkEntries).toList =
      [⟨"link.pdf", 4096, noon, "/pdfs/link.pdf"⟩, ⟨"pipe.pdf", 0, noon, "/pdfs/pipe.pdf"⟩] ∧
    ¬ (∀ p ∈ (listPDFsHandler_pdfs fsLink linkEntries).toList,
        ∃ e ∈ linkEntries, e.Name = p.Name ∧ e.Typ = FileType.regular) := by
  decide

/-- C9, amended: every element of the listing was built from a directory entry
that is not a directory, and the directory entries add nothing to the listing:
it is the listing of the enumeration with the directories removed. -/
theorem listing_excludes_directories_only (fs : FileSystem) (entries : List DirEntry) :
    (∀ p ∈ (listPDFsHandler_pdfs fs entries).toList,
      ∃ e ∈ entries, e.Typ ≠ FileType.dir ∧ e.Name = p.Name) ∧
    listPDFsHandler_pdfs fs entries =
      listPDFsHandler_pdfs fs (entries.filter (fun e => !e.IsDir)) := by
  constructor
  · intro p hp
    rw [pdfs_toList, List.mem_filterMap] at hp
    obtain ⟨e, he, hp⟩ := hp
    obtain ⟨hd, _, info, _, hpe⟩ := specEntry_some fs e p hp
    refine ⟨e, he, ?_, by rw [hpe]⟩
    intro ht
    simp [DirEntry.IsDir, ht] at hd
  · have hf : (entries.filter (fun e => !e.IsDir)).filterMap (specEntry fs) =
        entries.filterMap (specEntry fs) := by
      induction entries with
      | nil => rfl
      | cons e es ih =>
        cases hd : e.IsDir with
        | true =>
          have hnone : specEntry fs e = none := by
            unfold specEntry
            simp [hd]
          rw [List.filter_cons_of_neg (by simp [hd]), List.filterMap_cons, hnone, ih]
        | false =>
          rw [List.filter_cons_of_pos (by simp [hd]), List.filterMap_cons, List.filterMap_cons, ih]
    rw [pdfs_eq, pdfs_eq, hf]

/-- C10: the handler never reads the request: on the same file system, two
requests get the same writer state from the same writer state, and the same
response. -/
theorem response_independent_of_request (fs : FileSystem) (w : ResponseWriter)
    (r1 r2 : Request) :
    listPDFsHandler fs w r1 = listPDFsHandler fs w r2 ∧
    listResponse fs r1 = listResponse fs r2 ∧
    listResponse fsThree plainGet = listResponse fsThree otherRequest :=
  ⟨rfl, rfl, rfl⟩

end JustTp
